import Mathlib

/-!
Shallow embedding of the lip-sync synthesis and playback pipeline of
WEBWAIFUV2 (src/js/app.js): word-boundary capture in `synthesizeChunk`,
per-word phoneme distribution, the two word-timing validity tests, the
per-frame `updateLipSync` driver, and the `speakText` scheduler.
Numbers that JavaScript stores as doubles but only ever combines by
+, -, *, /, min, max and floor are modelled as rationals; tick counts
and indices are naturals.
-/

namespace WebWaifu

/-- A word-boundary entry as stored by `synthesizeChunk` into
`wordBoundaries` (app.js, the `wordBoundaries.push` object):
`word`, `offset` in ticks, `duration` in ticks. -/
structure WordBoundary where
  word : String
  offset : Nat
  duration : Nat
deriving Repr, DecidableEq, Inhabited

/-- A raw `WordBoundary` stream event as it arrives from the TTS backend:
`chunk.text`, `chunk.audioOffset` (possibly `undefined`), `chunk.duration`
(possibly `undefined`). -/
structure RawBoundaryEvent where
  text : String
  audioOffset : Option Nat
  duration : Option Nat
deriving Repr, DecidableEq, Inhabited

/-- `const duration = chunk.duration || 1000000` — a missing or zero
duration defaults to 1,000,000 ticks (100 ms). -/
def effDuration : Option Nat → Nat
  | none => 1000000
  | some 0 => 1000000
  | some d => d

/-- `chunk.audioOffset !== undefined && chunk.audioOffset > 0` — the test
deciding whether the reported offset is trusted. -/
def trustedOffset : Option Nat → Bool
  | none => false
  | some o => decide (0 < o)

/-- The entry pushed onto `wordBoundaries` for one stream event, given the
current value of the `totalAudioOffset` accumulator: a trusted reported
offset is recorded as-is, otherwise the accumulator is recorded. -/
def recordEvent (e : RawBoundaryEvent) (acc : Nat) : WordBoundary :=
  match e.audioOffset with
  | some o =>
    if 0 < o then ⟨e.text, o, effDuration e.duration⟩
    else ⟨e.text, acc, effDuration e.duration⟩
  | none => ⟨e.text, acc, effDuration e.duration⟩

/-- The word-boundary accumulation loop of `synthesizeChunk`: in both
branches of the source the accumulator after an event equals the recorded
offset plus the recorded duration (`totalAudioOffset = chunk.audioOffset +
duration` when trusted, `totalAudioOffset += duration` after recording
`offset = totalAudioOffset` otherwise). -/
def processBoundaries : List RawBoundaryEvent → Nat → List WordBoundary
  | [], _ => []
  | e :: rest, acc =>
    let wb := recordEvent e acc
    wb :: processBoundaries rest (wb.offset + wb.duration)

/-- `wordBoundaries.some((wb, i) => i > 0 && wb.offset > wordBoundaries[i-1].offset)`:
some adjacent pair of entries has strictly increasing offsets. -/
def existsAdjacentIncreasing : List WordBoundary → Bool
  | a :: b :: rest => decide (a.offset < b.offset) || existsAdjacentIncreasing (b :: rest)
  | _ => false

/-- The `hasValidTiming` value computed (and logged) inside
`synthesizeChunk`: a single word is valid when its duration is positive,
otherwise validity requires some adjacent increasing pair of offsets. -/
def hasValidTimingLog (wbs : List WordBoundary) : Bool :=
  if wbs.length = 1 then decide (0 < (wbs.headD default).duration)
  else existsAdjacentIncreasing wbs

/-- The `hasValidTiming` value computed inside `updateLipSync`:
`wordBoundaries.length > 1 && wordBoundaries.some(adjacent increasing)`. -/
def lipSyncHasValidTiming (wbs : List WordBoundary) : Bool :=
  decide (1 < wbs.length) && existsAdjacentIncreasing wbs

/-- The per-word phoneme distribution of `synthesizeChunk`: exact match is
kept one-to-one; more phonemes than words are grouped contiguously with
`slice(start, end).join('')` where the last group runs to the end; fewer
phonemes than words are indexed by `Math.floor(i * count / wordCount)`
with `|| ''` as out-of-range fallback. -/
def distributePhonemes (segs : List String) (wordCount : Nat) : List String :=
  if segs.length = wordCount then segs
  else if wordCount < segs.length then
    let perWord := segs.length / wordCount
    (List.range wordCount).map fun i =>
      let start := i * perWord
      let stop := if i = wordCount - 1 then segs.length else start + perWord
      String.join ((segs.drop start).take (stop - start))
  else
    (List.range wordCount).map fun i => segs.getD (i * segs.length / wordCount) ""

/-- The phoneme-extraction stage of `synthesizeChunk`: `perWordPhonemes`
starts as `null` and is only left `null` when `phonemize` throws (the
`catch` sets it back to `null`); a successful extraction always stores the
distribution. The `phonemeResult` argument is the segment list obtained
from the `phonemize` call, `none` when it threw. -/
def extractPerWordPhonemes (phonemeResult : Option (List String)) (wordCount : Nat) :
    Option (List String) :=
  match phonemeResult with
  | none => none
  | some segs => some (distributePhonemes segs wordCount)

/-- One chunk of the TTS backend stream consumed by `synthesizeChunk`:
either an audio frame (whose `data` may be absent) or a word-boundary
event. -/
inductive StreamChunk where
  | audio (data : Option (List Nat))
  | wordBoundary (text : String) (audioOffset : Option Nat) (duration : Option Nat)
deriving Repr, DecidableEq

/-- `if (chunk.type === 'audio' && chunk.data) audioChunks.push(chunk.data)`. -/
def collectAudio : List StreamChunk → List (List Nat)
  | [] => []
  | .audio (some d) :: rest => d :: collectAudio rest
  | _ :: rest => collectAudio rest

/-- The subsequence of word-boundary events of the stream. -/
def collectBoundaryEvents : List StreamChunk → List RawBoundaryEvent
  | [] => []
  | .wordBoundary t o d :: rest => ⟨t, o, d⟩ :: collectBoundaryEvents rest
  | _ :: rest => collectBoundaryEvents rest

/-- The value returned by `synthesizeChunk` (and by
`synthesizeFishAudioChunk`): `{ audioBlob, wordBoundaries, phonemes, text }`. -/
structure SynthResult where
  audio : List Nat
  wordBoundaries : List WordBoundary
  phonemes : Option (List String)
  text : String
deriving Repr, DecidableEq

/-- `synthesizeChunk` as a function of the backend stream it consumed and
of the `phonemize` outcome: collect audio frames and word boundaries,
throw `'No audio received from TTS'` when no audio frame arrived, then
attach the per-word phoneme distribution. -/
def synthesizeChunk (text : String) (stream : List StreamChunk)
    (phonemeResult : Option (List String)) : Except String SynthResult :=
  let audioChunks := collectAudio stream
  let wbs := processBoundaries (collectBoundaryEvents stream) 0
  if audioChunks.isEmpty then .error "No audio received from TTS"
  else .ok ⟨audioChunks.flatten, wbs, extractPerWordPhonemes phonemeResult wbs.length, text⟩

/-- Ticks to seconds: `offset / 10000000` (Edge TTS uses 100 ns units). -/
def ticksToSeconds (n : Nat) : ℚ := (n : ℚ) / 10000000

/-- The mouth-animation module state mutated by `updateLipSync`:
`previousAa`, `previousIh`, `previousOu`, `previousMouthAmount`. -/
structure MouthState where
  previousAa : ℚ
  previousIh : ℚ
  previousOu : ℚ
  previousMouthAmount : ℚ
deriving Repr, DecidableEq

/-- The all-zero mouth state written by every hard-cut reset. -/
def MouthState.zero : MouthState := ⟨0, 0, 0, 0⟩

/-- `Math.min(Math.max(x, 0), 1.0)` — the final per-channel clamp. -/
def clamp01 (x : ℚ) : ℚ := min (max x 0) 1

/-- One exponential-smoothing step:
`smoothed = previous + (target - previous) * (1 - smoothingFactor)`. -/
def smoothStep (previous target α : ℚ) : ℚ := previous + (target - previous) * (1 - α)

/-- `n` repeated smoothing steps toward a constant target. -/
def smoothIter (previous target α : ℚ) : Nat → ℚ
  | 0 => previous
  | n + 1 => smoothStep (smoothIter previous target α n) target α

/-- The linear scan of `updateLipSync` locating the word active at the
current playback time: first entry with `wordStart <= t <= wordEnd`. -/
def findActiveWordAux (t : ℚ) : List WordBoundary → Nat → Option (Nat × WordBoundary)
  | [], _ => none
  | wb :: rest, i =>
    let wordStart := ticksToSeconds wb.offset
    let wordEnd := wordStart + ticksToSeconds wb.duration
    if wordStart ≤ t ∧ t ≤ wordEnd then some (i, wb)
    else findActiveWordAux t rest (i + 1)

/-- `findActiveWordAux` started at index 0. -/
def findActiveWord (t : ℚ) (wbs : List WordBoundary) : Option (Nat × WordBoundary) :=
  findActiveWordAux t wbs 0

/-- The `PHONEME_TO_BLEND_SHAPE` table of app.js, as (aa, ih, ou) triples
with absent fields read as 0 through `blendMap.aa || 0`. -/
def PHONEME_TO_BLEND_SHAPE : String → Option (ℚ × ℚ × ℚ)
  | "ə" => some (0.5, 0.2, 0)
  | "æ" => some (0.7, 0, 0)
  | "a" => some (0.8, 0, 0)
  | "ɑ" => some (1.0, 0, 0)
  | "ɒ" => some (0, 0, 0.8)
  | "ɔ" => some (0, 0, 1.0)
  | "o" => some (0, 0, 0.8)
  | "ʊ" => some (0, 0, 0.7)
  | "u" => some (0, 0, 1.0)
  | "ʌ" => some (0.3, 0, 0.5)
  | "ɪ" => some (0, 0.6, 0)
  | "i" => some (0, 0.7, 0)
  | "e" => some (0.2, 0.5, 0)
  | "ɛ" => some (0.3, 0.6, 0)
  | "ɜ" => some (0.5, 0, 0.3)
  | "ɐ" => some (0.6, 0, 0)
  | "f" => some (0, 0.3, 0)
  | "v" => some (0, 0.3, 0)
  | "θ" => some (0, 0.4, 0)
  | "ð" => some (0, 0.4, 0)
  | "s" => some (0, 0.4, 0)
  | "z" => some (0, 0.4, 0)
  | "ʃ" => some (0, 0, 0.4)
  | "ʒ" => some (0, 0, 0.4)
  | "t" => some (0, 0.3, 0)
  | "d" => some (0, 0.3, 0)
  | "n" => some (0, 0.3, 0)
  | "l" => some (0, 0.3, 0)
  | "ɹ" => some (0, 0, 0.4)
  | "w" => some (0, 0, 0.6)
  | "j" => some (0, 0.4, 0)
  | "p" => some (0.3, 0, 0)
  | "b" => some (0.3, 0, 0)
  | "m" => some (0.3, 0, 0)
  | "k" => some (0.4, 0, 0)
  | "ɡ" => some (0.4, 0, 0)
  | "ŋ" => some (0.3, 0, 0)
  | "h" => some (0.2, 0, 0)
  | "ɾ" => some (0, 0.3, 0)
  | "tʃ" => some (0, 0, 0.4)
  | "dʒ" => some (0, 0, 0.4)
  | _ => none

/-- The characters removed by the first `replace` of the phoneme cleaner:
IPA stress, length and combining diacritics. -/
def isStrippedMark (c : Char) : Bool :=
  c = 'ˈ' || c = 'ˌ' || c = 'ː' || c = 'ˑ' ||
  c = '̆' || c = '̯' || c = '̩' || c = '̃' ||
  c = '̀' || c = '́' || c = '̂' || c = '̄'

/-- The punctuation removed by the second `replace`: `[,.!?]`. -/
def isPunctMark (c : Char) : Bool :=
  c = ',' || c = '.' || c = '!' || c = '?'

/-- `cleanPhonemes`: strip diacritics and punctuation, split into
characters, and drop whitespace (`c.trim().length > 0`). -/
def cleanPhonemeChars (s : String) : List Char :=
  s.toList.filter fun c => !isStrippedMark c && !isPunctMark c && !c.isWhitespace

/-- The vowel character class of the fallback heuristic,
`/[aeiouæɑɔʊʌɪɛəɜɐ]/i`, with the case-insensitive flag modelled by
lower-casing the candidate character. -/
def vowelChars : List Char :=
  ['a', 'e', 'i', 'o', 'u', 'æ', 'ɑ', 'ɔ', 'ʊ', 'ʌ', 'ɪ', 'ɛ', 'ə', 'ɜ', 'ɐ']

/-- `isVowel = /[aeiouæɑɔʊʌɪɛəɜɐ]/i.test(phonemeKey)`. -/
def isVowelKey (s : String) : Bool :=
  s.toList.any fun c => vowelChars.contains c.toLower

/-- The per-frame signals read by `updateLipSync`: the playback clock,
the sampled real-time amplitude, the value of `Math.sin(currentTime * 4.5)`
for this frame, the smoothing slider, and the stored timing/phoneme data. -/
structure LipSyncInput where
  currentTime : ℚ
  amplitude : ℚ
  sinPhase : ℚ
  mouthSmoothing : ℚ
  wordBoundaries : List WordBoundary
  currentPhonemes : Option (List String)

/-- The amplitude-only target branch of `updateLipSync`: cyclical
vowel-shape rotation driven by the sine phase. -/
def amplitudeModeTarget (amplitude sinPhase : ℚ) : ℚ × ℚ × ℚ :=
  let cycle := sinPhase * 0.5 + 0.5
  let targetAa := amplitude * 1.0
  if cycle < 0.33 then (min (targetAa * 1.3) 1.0, 0, 0)
  else if cycle < 0.66 then (targetAa * 0.6, min (amplitude * 0.75) 1.0, 0)
  else (targetAa * 0.6, 0, min (amplitude * 0.75) 1.0)

/-- The phoneme-mode target branch of `updateLipSync`, for the active word
`wb` found at index `wordIndex`. -/
def phonemeModeTarget (inp : LipSyncInput) (wordIndex : Nat) (wb : WordBoundary) :
    ℚ × ℚ × ℚ :=
  let wordPhonemes : String :=
    match inp.currentPhonemes with
    | some arr =>
      if wordIndex < arr.length then arr.getD wordIndex ""
      else if 0 < arr.length then arr.getD 0 ""
      else ""
    | none => ""
  let wordStart := ticksToSeconds wb.offset
  let wordDuration := ticksToSeconds wb.duration
  let timeInWord := max 0 (min 1 ((inp.currentTime - wordStart) / wordDuration))
  let cleanPhonemes := cleanPhonemeChars wordPhonemes
  if 0 < cleanPhonemes.length then
    let acceleratedTime := min (timeInWord * 1.5) 1.0
    let phonemeIndex := (⌊acceleratedTime * cleanPhonemes.length⌋).toNat
    let currentPhoneme :=
      if phonemeIndex < cleanPhonemes.length then cleanPhonemes.getD phonemeIndex ' '
      else cleanPhonemes.getLastD ' '
    let phonemeKey : String :=
      if phonemeIndex < cleanPhonemes.length - 1 then
        let twoChar := String.mk [currentPhoneme, cleanPhonemes.getD (phonemeIndex + 1) ' ']
        if (PHONEME_TO_BLEND_SHAPE twoChar).isSome then twoChar
        else String.mk [currentPhoneme]
      else String.mk [currentPhoneme]
    let blend := (PHONEME_TO_BLEND_SHAPE phonemeKey).getD (0, 0, 0)
    let targetAa := blend.1
    let targetIh := blend.2.1
    let targetOu := blend.2.2
    if 0 < targetAa ∨ 0 < targetIh ∨ 0 < targetOu then
      let effectiveAmplitude := max inp.amplitude 0.3
      let amplitudeMultiplier := min (effectiveAmplitude * 2.0) 1.0
      let phonemeAa := targetAa * amplitudeMultiplier
      let phonemeIh := targetIh * amplitudeMultiplier
      let phonemeOu := targetOu * amplitudeMultiplier
      let amplitudeBoost := effectiveAmplitude * 0.5
      let phonemeAa := min (phonemeAa + amplitudeBoost * 1.0) 1.0
      let phonemeIh := min (phonemeIh + amplitudeBoost * 0.6) 1.0
      let phonemeOu := min (phonemeOu + amplitudeBoost * 0.6) 1.0
      let phonemeAa :=
        if phonemeAa + phonemeIh + phonemeOu < 0.2 then
          max phonemeAa (effectiveAmplitude * 0.5)
        else phonemeAa
      (phonemeAa, phonemeIh, phonemeOu)
    else if isVowelKey phonemeKey then (max (inp.amplitude * 1.0) 0.3, 0, 0)
    else (max (inp.amplitude * 0.6) 0.2, 0, 0)
  else (inp.amplitude * 0.8, 0, 0)

/-- Which mouth expressions the VRM expression manager exposes; each
`manager.setValue` call in the source is guarded by
`manager.getExpression(name)`. -/
structure ExprFlags where
  hasAa : Bool
  hasIh : Bool
  hasOu : Bool
deriving Repr, DecidableEq

/-- `some v` when the guarded `setValue(name, v)` fires, `none` when the
expression is absent and nothing is written. -/
def applyIf (flag : Bool) (v : ℚ) : Option ℚ := if flag then some v else none

/-- One frame's effect: the new module state and the value written to each
of the three mouth expressions (if present). -/
structure FrameResult where
  state : MouthState
  appliedAa : Option ℚ
  appliedIh : Option ℚ
  appliedOu : Option ℚ
deriving Repr, DecidableEq

/-- The hard-cut frame: write 0 to every present channel and zero the
whole smoothing state. -/
def closeMouthFrame (flags : ExprFlags) : FrameResult :=
  ⟨MouthState.zero, applyIf flags.hasAa 0, applyIf flags.hasIh 0, applyIf flags.hasOu 0⟩

/-- The body of `updateLipSync` after its early-return guards: silence
check first (`amplitude > 0.02`), then amplitude mode when timing is
invalid or no word is active, else phoneme mode, then exponential
smoothing, clamping, and the state update. -/
def updateLipSyncFrame (flags : ExprFlags) (inp : LipSyncInput) (st : MouthState) :
    FrameResult :=
  let isAudioActive := decide (0.02 < inp.amplitude)
  let hasValidTiming := lipSyncHasValidTiming inp.wordBoundaries
  let activeWord := findActiveWord inp.currentTime inp.wordBoundaries
  if !isAudioActive then closeMouthFrame flags
  else
    let target :=
      if !hasValidTiming then amplitudeModeTarget inp.amplitude inp.sinPhase
      else
        match activeWord with
        | none => amplitudeModeTarget inp.amplitude inp.sinPhase
        | some (i, wb) => phonemeModeTarget inp i wb
    let smoothingFactor := inp.mouthSmoothing
    let smoothedAa := smoothStep st.previousAa target.1 smoothingFactor
    let smoothedIh := smoothStep st.previousIh target.2.1 smoothingFactor
    let smoothedOu := smoothStep st.previousOu target.2.2 smoothingFactor
    { state := ⟨smoothedAa, smoothedIh, smoothedOu, max smoothedAa (max smoothedIh smoothedOu)⟩
      appliedAa := applyIf flags.hasAa (clamp01 smoothedAa)
      appliedIh := applyIf flags.hasIh (clamp01 smoothedIh)
      appliedOu := applyIf flags.hasOu (clamp01 smoothedOu) }

/-- The conditions tested by the early-return guards of `updateLipSync`:
presence of the expression manager and of `currentAudio`, the audio
element's paused/ended flags, `APP_STATE.isSpeaking`, and truthiness of
`APP_STATE.wordBoundaries`. -/
structure FrameGuards where
  hasManager : Bool
  hasAudio : Bool
  paused : Bool
  ended : Bool
  isSpeaking : Bool
  boundariesPresent : Bool
deriving Repr, DecidableEq

/-- `updateLipSync` including its guards: `none` when the function returns
before touching any state (no manager or no audio), a hard-cut close when
paused/ended or not speaking, otherwise the main frame body. -/
def updateLipSync (g : FrameGuards) (flags : ExprFlags) (inp : LipSyncInput)
    (st : MouthState) : Option FrameResult :=
  if !g.hasManager || !g.hasAudio then none
  else if g.paused || g.ended then some (closeMouthFrame flags)
  else if !g.isSpeaking || !g.boundariesPresent then some (closeMouthFrame flags)
  else some (updateLipSyncFrame flags inp st)

/-- JavaScript `text.trim()`: strip leading and trailing whitespace. -/
def trimString (s : String) : String :=
  String.mk (((s.toList.dropWhile Char.isWhitespace).reverse.dropWhile Char.isWhitespace).reverse)

/-- The slice of `APP_STATE` (plus the module-level mouth state, the
current animation, and the last status message) read and written by
`speakText`. `currentAudio` holds the audio buffer handed to the player. -/
structure AppState where
  isSpeaking : Bool
  speechQueue : List String
  nextChunkReady : Option SynthResult
  currentAudio : Option (List Nat)
  wordBoundaries : List WordBoundary
  wordBoundaryStartTime : Option ℚ
  currentPhonemes : Option (List String)
  animation : String
  status : Option String
  mouth : MouthState
deriving Repr, DecidableEq

/-- The playback-start writes of `speakText` once `chunkData` is in hand:
store `wordBoundaries`, clear `wordBoundaryStartTime`, store `phonemes`,
and hand the audio buffer to a fresh `Audio` element. -/
def playChunk (st : AppState) (c : SynthResult) : AppState :=
  { st with
    wordBoundaries := c.wordBoundaries
    wordBoundaryStartTime := none
    currentPhonemes := c.phonemes
    currentAudio := some c.audio }

/-- The `catch` block of `speakText`: drop the speaking flag, switch to
the idle animation, and surface an error status. -/
def speakTextCatch (st : AppState) (e : String) : AppState :=
  { st with
    isSpeaking := false
    animation := "idle"
    status := some ("❌ TTS error: " ++ e) }

/-- `speakText` as a state transition. `text` is the argument (`none`
models a null/undefined argument); `synthOutcome` is the result the
awaited fresh synthesis would deliver (`Except.error` when its promise
rejects). The guard returns the state untouched; while speaking the text
is queued (the background pre-buffer kick-off completes asynchronously
and writes nothing synchronously); otherwise the try block raises the
speaking flag, zeroes the mouth, plays the talking animation, consumes a
text-matching pre-buffered chunk (clearing the slot) or synthesizes
fresh, and the catch handles a synthesis rejection. -/
def speakText (text : Option String) (synthOutcome : Except String SynthResult)
    (st : AppState) : AppState :=
  match text with
  | none => st
  | some t =>
    if trimString t = "" then st
    else if st.isSpeaking then { st with speechQueue := st.speechQueue ++ [t] }
    else
      let st1 := { st with isSpeaking := true, mouth := MouthState.zero, animation := "talking" }
      match st.nextChunkReady with
      | some r =>
        if r.text = t then playChunk { st1 with nextChunkReady := none } r
        else
          match synthOutcome with
          | .ok c => playChunk st1 c
          | .error e => speakTextCatch st1 e
      | none =>
        match synthOutcome with
        | .ok c => playChunk st1 c
        | .error e => speakTextCatch st1 e

/-! ## Helper lemmas -/

lemma existsAdjacentIncreasing_iff (wbs : List WordBoundary) :
    existsAdjacentIncreasing wbs = true ↔
      ∃ i, i + 1 < wbs.length ∧
        (wbs.getD i default).offset < (wbs.getD (i + 1) default).offset := by
  induction wbs with
  | nil => simp [existsAdjacentIncreasing]
  | cons a rest ih =>
    cases rest with
    | nil =>
      simp only [existsAdjacentIncreasing, List.length_cons, List.length_nil]
      constructor
      · intro h; cases h
      · rintro ⟨i, hi, _⟩; omega
    | cons b rest2 =>
      simp only [existsAdjacentIncreasing, Bool.or_eq_true, decide_eq_true_eq, ih]
      constructor
      · rintro (h | ⟨i, hi, hlt⟩)
        · exact ⟨0, by simp, by simpa using h⟩
        · refine ⟨i + 1, by simpa using hi, ?_⟩
          simpa [List.getD_cons_succ] using hlt
      · rintro ⟨i, hi, hlt⟩
        cases i with
        | zero => left; simpa using hlt
        | succ j =>
          right
          refine ⟨j, by simpa using hi, ?_⟩
          simpa [List.getD_cons_succ] using hlt

/-! ## C1 — word-timing validity tests -/

/-- C1 counterexample: the validity test actually used by the lip-sync
path (`updateLipSync`) rejects a single-word timing list even when its
duration is positive, contradicting the claim that it returns true for a
length-1 list with positive `durationTicks`. -/
theorem lipSync_singleton_invalid_cex :
    lipSyncHasValidTiming [⟨"hello", 0, 500⟩] = false := rfl

/-- C1 (amended): the lip-sync path's validity test returns true iff the
list has length greater than 1 and some adjacent pair of entries has
strictly increasing offsets — a length-1 list is always invalid there;
the singleton-with-positive-duration rule holds only for the validity
value computed and logged by `synthesizeChunk`; an empty list is invalid
for both tests. -/
theorem lipSync_timing_validity (wbs : List WordBoundary) (w : WordBoundary) :
    (lipSyncHasValidTiming wbs = true ↔
      1 < wbs.length ∧
        ∃ i, i + 1 < wbs.length ∧
          (wbs.getD i default).offset < (wbs.getD (i + 1) default).offset)
    ∧ lipSyncHasValidTiming [w] = false
    ∧ hasValidTimingLog [w] = decide (0 < w.duration)
    ∧ lipSyncHasValidTiming [] = false
    ∧ hasValidTimingLog [] = false := by
  refine ⟨?_, ?_, ?_, rfl, rfl⟩
  · rw [lipSyncHasValidTiming, Bool.and_eq_true, decide_eq_true_eq,
      existsAdjacentIncreasing_iff]
  · simp [lipSyncHasValidTiming, existsAdjacentIncreasing]
  · simp [hasValidTimingLog]

/-! ## C2 — hard close on silence -/

/-- C2: in any frame that reaches the amplitude check (manager and audio
present, audio not paused/ended, speaking, boundaries present) with the
sampled amplitude at most 0.02, `updateLipSync` writes exactly 0 to all
three mouth channels and zeroes the whole previous-frame smoothing state,
with no smoothing applied, for every prior state and every word-timing
and phoneme configuration. -/
theorem updateLipSync_silence_closes (g : FrameGuards) (flags : ExprFlags)
    (inp : LipSyncInput) (st : MouthState)
    (hm : g.hasManager = true) (hau : g.hasAudio = true)
    (hp : g.paused = false) (he : g.ended = false)
    (hs : g.isSpeaking = true) (hb : g.boundariesPresent = true)
    (haa : flags.hasAa = true) (hih : flags.hasIh = true) (hou : flags.hasOu = true)
    (hamp : inp.amplitude ≤ 0.02) :
    updateLipSync g flags inp st = some ⟨MouthState.zero, some 0, some 0, some 0⟩ := by
  have h1 : ¬ ((0.02 : ℚ) < inp.amplitude) := not_lt.mpr hamp
  simp [updateLipSync, updateLipSyncFrame, hm, hau, hp, he, hs, hb, h1,
    closeMouthFrame, applyIf, haa, hih, hou]

/-- Concrete instance of the C2 theorem: a silent frame (amplitude 0) on
a fully-populated state closes the mouth and zeroes the state. -/
theorem updateLipSync_silence_closes_witness :
    updateLipSync ⟨true, true, false, false, true, true⟩ ⟨true, true, true⟩
      ⟨0, 0, 0, 1/10, [⟨"hi", 0, 500⟩], some ["haɪ"]⟩ ⟨1, 1, 1, 1⟩ =
      some ⟨MouthState.zero, some 0, some 0, some 0⟩ :=
  updateLipSync_silence_closes _ _ _ _ rfl rfl rfl rfl rfl rfl rfl rfl rfl
    (by norm_num)

/-! ## C3 — phoneme distribution -/

lemma map_range_getD {α : Type} (f : Nat → α) (n i : Nat) (hi : i < n) (d : α) :
    ((List.range n).map f).getD i d = f i := by
  rw [List.getD_eq_getElem?_getD, List.getElem?_map, List.getElem?_range hi]
  rfl

/-- C3: with at least one phoneme segment and at least one word, the
distribution of `synthesizeChunk` is: identity when counts match; for
more phonemes than words, `n` contiguous groups, the first `n - 1` each
of exactly `⌊P/n⌋` segments and the last running to the end with exactly
`⌊P/n⌋ + P % n` segments; for fewer phonemes than words, entry `i` is
the segment at index `⌊i·P/n⌋`, which is always in range (repeats
allowed). -/
theorem distributePhonemes_spec (segs : List String) (n : Nat)
    (hP : 0 < segs.length) (hN : 0 < n) :
    (segs.length = n → distributePhonemes segs n = segs)
    ∧ (n < segs.length →
        (distributePhonemes segs n).length = n
        ∧ (∀ i, i + 1 < n →
            (distributePhonemes segs n).getD i "" =
              String.join ((segs.drop (i * (segs.length / n))).take (segs.length / n))
            ∧ ((segs.drop (i * (segs.length / n))).take (segs.length / n)).length
                = segs.length / n)
        ∧ (distributePhonemes segs n).getD (n - 1) "" =
            String.join (segs.drop ((n - 1) * (segs.length / n)))
        ∧ (segs.drop ((n - 1) * (segs.length / n))).length
            = segs.length / n + segs.length % n)
    ∧ (segs.length < n → ∀ i, i < n →
        (distributePhonemes segs n).getD i "" = segs.getD (i * segs.length / n) ""
        ∧ i * segs.length / n < segs.length) := by
  have hq_mul : n * (segs.length / n) ≤ segs.length := Nat.mul_div_le segs.length n
  refine ⟨fun h => ?_, fun h => ?_, fun h => ?_⟩
  · simp only [distributePhonemes, if_pos h]
  · have hne : ¬ segs.length = n := by omega
    have hdp : distributePhonemes segs n = (List.range n).map fun i =>
        String.join ((segs.drop (i * (segs.length / n))).take
          ((if i = n - 1 then segs.length else i * (segs.length / n) + segs.length / n)
            - i * (segs.length / n))) := by
      simp only [distributePhonemes, if_neg hne, if_pos h]
    refine ⟨?_, ?_, ?_, ?_⟩
    · rw [hdp, List.length_map, List.length_range]
    · intro i hi
      have hne2 : ¬ i = n - 1 := by omega
      rw [hdp, map_range_getD _ n i (by omega), if_neg hne2]
      have htake : i * (segs.length / n) + segs.length / n - i * (segs.length / n)
          = segs.length / n := Nat.add_sub_cancel_left _ _
      rw [htake]
      refine ⟨rfl, ?_⟩
      rw [List.length_take, List.length_drop]
      have h1 : (i + 1) * (segs.length / n) ≤ n * (segs.length / n) :=
        Nat.mul_le_mul_right _ (by omega)
      have h2 : (i + 1) * (segs.length / n)
          = i * (segs.length / n) + segs.length / n := by ring
      omega
    · rw [hdp, map_range_getD _ n (n - 1) (by omega), if_pos rfl]
      have hlen : (segs.drop ((n - 1) * (segs.length / n))).length
          = segs.length - (n - 1) * (segs.length / n) := List.length_drop _ _
      rw [List.take_of_length_le (le_of_eq hlen)]
    · rw [List.length_drop]
      have hq_mod : n * (segs.length / n) + segs.length % n = segs.length :=
        Nat.div_add_mod segs.length n
      have hsucc : (n - 1) * (segs.length / n) + segs.length / n
          = n * (segs.length / n) := by
        cases n with
        | zero => omega
        | succ m => simp [Nat.succ_mul]
      generalize hq : segs.length / n = q at hq_mul hq_mod hsucc ⊢
      generalize hr : segs.length % n = r at hq_mod ⊢
      generalize hB : n * q = B at hq_mul hq_mod hsucc
      generalize hA : (n - 1) * q = A at hsucc ⊢
      omega
  · intro i hi
    have hne : ¬ segs.length = n := by omega
    have hnlt : ¬ n < segs.length := by omega
    have hdp : distributePhonemes segs n =
        (List.range n).map fun i => segs.getD (i * segs.length / n) "" := by
      simp only [distributePhonemes, if_neg hne, if_neg hnlt]
    refine ⟨by rw [hdp, map_range_getD _ n i hi], ?_⟩
    rw [Nat.div_lt_iff_lt_mul hN, Nat.mul_comm segs.length n]
    exact (Nat.mul_lt_mul_right hP).mpr hi

/-- Concrete instance of the C3 theorem: 5 phonemes over 2 words put the
last group at the tail of the segment list (floor(5/2) segments plus the
remainder). -/
theorem distributePhonemes_spec_witness :
    (distributePhonemes ["a", "b", "c", "d", "e"] 2).getD 1 "" =
      String.join (["a", "b", "c", "d", "e"].drop 2) :=
  ((distributePhonemes_spec ["a", "b", "c", "d", "e"] 2 (by decide) (by decide)).2.1
    (by decide)).2.2.1

/-! ## C4 — degradation of phoneme extraction -/

/-- C4 counterexample: a call of `synthesizeChunk` whose stream carries
one audio frame and zero word boundaries (word count 0), with phoneme
extraction succeeding on one segment, returns `phonemes = some []` — an
empty array, not the `null` the claim requires for word count 0. -/
theorem synthesizeChunk_phonemes_cex :
    (synthesizeChunk "hi" [StreamChunk.audio (some [1])] (some ["h"])).toOption.map
        SynthResult.phonemes = some (some [])
    ∧ ¬ (synthesizeChunk "hi" [StreamChunk.audio (some [1])] (some ["h"])).toOption.map
        SynthResult.phonemes = some none :=
  ⟨rfl, by decide⟩

/-- C4 (amended): the phonemes field of the synthesis result is `null`
exactly when phoneme extraction throws — a failure is absorbed, never
propagated; when extraction succeeds with word count 0 the field is an
empty array, and when extraction succeeds with zero segments and `n`
words it is an array of `n` empty strings. -/
theorem extractPerWordPhonemes_degrades (pr : Option (List String))
    (s : List String) (n : Nat) :
    (extractPerWordPhonemes pr n = none ↔ pr = none)
    ∧ extractPerWordPhonemes (some s) 0 = some []
    ∧ extractPerWordPhonemes (some []) n = some (List.replicate n "") := by
  refine ⟨?_, ?_, ?_⟩
  · cases pr <;> simp [extractPerWordPhonemes]
  · cases s <;> simp [extractPerWordPhonemes, distributePhonemes]
  · cases n with
    | zero => simp [extractPerWordPhonemes, distributePhonemes]
    | succ m =>
      simp only [extractPerWordPhonemes, distributePhonemes, List.length_nil,
        Option.some.injEq]
      rw [if_neg (by omega), if_neg (by omega)]
      calc (List.range (m + 1)).map
            (fun i => List.getD ([] : List String) (i * 0 / (m + 1)) "")
          = (List.range (m + 1)).map (fun _ => "") := by
            apply List.map_congr_left; intro i _; rfl
        _ = List.replicate (m + 1) "" := by
            rw [List.map_const', List.length_range]


/-! ## C5 / C9 — word-boundary offset accumulation and durations -/

lemma effDuration_pos (d : Option Nat) : 0 < effDuration d := by
  match d with
  | none => decide
  | some 0 => decide
  | some (k + 1) => exact Nat.succ_pos k

lemma recordEvent_duration (e : RawBoundaryEvent) (acc : Nat) :
    (recordEvent e acc).duration = effDuration e.duration := by
  rcases e with ⟨t, ao, d⟩
  cases ao with
  | none => rfl
  | some o =>
    by_cases ho : 0 < o
    · simp [recordEvent, ho]
    · simp [recordEvent, ho]

lemma recordEvent_trusted (e : RawBoundaryEvent) (acc o : Nat)
    (h : e.audioOffset = some o) (ho : 0 < o) :
    recordEvent e acc = ⟨e.text, o, effDuration e.duration⟩ := by
  rcases e with ⟨t, ao, d⟩
  simp only at h
  subst h
  simp [recordEvent, ho]

lemma recordEvent_untrusted (e : RawBoundaryEvent) (acc : Nat)
    (h : trustedOffset e.audioOffset = false) :
    recordEvent e acc = ⟨e.text, acc, effDuration e.duration⟩ := by
  rcases e with ⟨t, ao, d⟩
  cases ao with
  | none => rfl
  | some o =>
    have ho : ¬ 0 < o := by simpa [trustedOffset] using h
    simp [recordEvent, ho]

lemma processBoundaries_cons (e : RawBoundaryEvent) (rest : List RawBoundaryEvent)
    (acc : Nat) :
    processBoundaries (e :: rest) acc =
      recordEvent e acc ::
        processBoundaries rest ((recordEvent e acc).offset + (recordEvent e acc).duration) :=
  rfl

lemma processBoundaries_length (evs : List RawBoundaryEvent) :
    ∀ acc, (processBoundaries evs acc).length = evs.length := by
  induction evs with
  | nil => intro acc; rfl
  | cons e rest ih =>
    intro acc
    rw [processBoundaries_cons, List.length_cons, List.length_cons, ih]

lemma processBoundaries_getD (evs : List RawBoundaryEvent) :
    ∀ acc i, i < evs.length →
      ∃ a, (processBoundaries evs acc).getD i default =
        recordEvent (evs.getD i default) a := by
  induction evs with
  | nil => intro _ i hi; simp at hi
  | cons e rest ih =>
    intro acc i hi
    cases i with
    | zero => exact ⟨acc, by rw [processBoundaries_cons]; rfl⟩
    | succ j =>
      obtain ⟨a, ha⟩ := ih ((recordEvent e acc).offset + (recordEvent e acc).duration) j
        (by simpa using hi)
      exact ⟨a, by rw [processBoundaries_cons]; simpa using ha⟩

lemma processBoundaries_head_untrusted (e : RawBoundaryEvent)
    (rest : List RawBoundaryEvent) (acc : Nat)
    (h : trustedOffset e.audioOffset = false) :
    ((processBoundaries (e :: rest) acc).getD 0 default).offset = acc := by
  rw [processBoundaries_cons, List.getD_cons_zero, recordEvent_untrusted e acc h]

lemma processBoundaries_chain (evs : List RawBoundaryEvent) :
    ∀ acc i, i + 1 < evs.length →
      trustedOffset ((evs.getD (i + 1) default).audioOffset) = false →
      ((processBoundaries evs acc).getD (i + 1) default).offset =
        ((processBoundaries evs acc).getD i default).offset +
          ((processBoundaries evs acc).getD i default).duration := by
  induction evs with
  | nil => intro _ i hi; simp at hi
  | cons e rest ih =>
    intro acc i hi hun
    cases i with
    | zero =>
      cases rest with
      | nil => simp at hi
      | cons f rest2 =>
        rw [processBoundaries_cons, List.getD_cons_succ, List.getD_cons_zero]
        have hf : trustedOffset f.audioOffset = false := by
          simpa using hun
        exact processBoundaries_head_untrusted f rest2 _ hf
    | succ j =>
      rw [processBoundaries_cons, List.getD_cons_succ, List.getD_cons_succ]
      exact ih _ j (by simpa using hi) (by simpa using hun)

/-- C5: in the boundary stream processed by `synthesizeChunk` (started at
accumulator 0), an event with a trusted (defined and positive) reported
offset is recorded as-is; an event whose reported offset is missing or 0
is recorded with the running accumulator — 0 for the first event, and the
previous recorded offset plus the previous recorded duration afterwards —
so one malformed event does not collapse subsequent offsets to zero. -/
theorem processBoundaries_offset_spec (evs : List RawBoundaryEvent) :
    (processBoundaries evs 0).length = evs.length
    ∧ (∀ i o, i < evs.length → (evs.getD i default).audioOffset = some o → 0 < o →
        ((processBoundaries evs 0).getD i default).offset = o)
    ∧ (∀ i, i < evs.length →
        ((processBoundaries evs 0).getD i default).duration =
          effDuration ((evs.getD i default).duration))
    ∧ (∀ e rest, evs = e :: rest → trustedOffset e.audioOffset = false →
        ((processBoundaries evs 0).getD 0 default).offset = 0)
    ∧ (∀ i, i + 1 < evs.length →
        trustedOffset ((evs.getD (i + 1) default).audioOffset) = false →
        ((processBoundaries evs 0).getD (i + 1) default).offset =
          ((processBoundaries evs 0).getD i default).offset +
            ((processBoundaries evs 0).getD i default).duration) := by
  refine ⟨processBoundaries_length evs 0, ?_, ?_, ?_, processBoundaries_chain evs 0⟩
  · intro i o hi ho hpos
    obtain ⟨a, ha⟩ := processBoundaries_getD evs 0 i hi
    rw [ha, recordEvent_trusted _ a o ho hpos]
  · intro i hi
    obtain ⟨a, ha⟩ := processBoundaries_getD evs 0 i hi
    rw [ha, recordEvent_duration]
  · intro e rest hevs hun
    subst hevs
    exact processBoundaries_head_untrusted e rest 0 hun

/-- Concrete instance of the C5 theorem: in a stream whose second event
reports offset 0, the second recorded offset continues from the first
event's trusted offset 40 plus its duration 10. -/
theorem processBoundaries_offset_spec_witness :
    ((processBoundaries [⟨"a", some 40, some 10⟩, ⟨"b", some 0, some 5⟩] 0).getD 1
        default).offset =
      ((processBoundaries [⟨"a", some 40, some 10⟩, ⟨"b", some 0, some 5⟩] 0).getD 0
          default).offset +
        ((processBoundaries [⟨"a", some 40, some 10⟩, ⟨"b", some 0, some 5⟩] 0).getD 0
            default).duration :=
  (processBoundaries_offset_spec [⟨"a", some 40, some 10⟩, ⟨"b", some 0, some 5⟩]).2.2.2.2
    0 (by decide) (by decide)

/-- C9: every word boundary stored by `synthesizeChunk` has a strictly
positive duration (a missing or zero reported duration becomes the
1,000,000-tick default), so the word-duration divisor
`ticksToSeconds duration` used by `updateLipSync`'s per-word progress is
strictly positive — the division is never by zero. -/
theorem wordBoundary_duration_pos (evs : List RawBoundaryEvent) (acc : Nat)
    (wb : WordBoundary) (h : wb ∈ processBoundaries evs acc) :
    0 < wb.duration ∧ 0 < ticksToSeconds wb.duration
      ∧ effDuration none = 1000000 ∧ effDuration (some 0) = 1000000 := by
  have hdur : 0 < wb.duration := by
    induction evs generalizing acc with
    | nil => simp [processBoundaries] at h
    | cons e rest ih =>
      rw [processBoundaries_cons] at h
      rcases List.mem_cons.mp h with heq | hmem
      · rw [heq, recordEvent_duration]
        exact effDuration_pos e.duration
      · exact ih _ hmem
  refine ⟨hdur, ?_, rfl, rfl⟩
  rw [ticksToSeconds]
  apply div_pos
  · exact_mod_cast hdur
  · norm_num

/-- Concrete instance of the C9 theorem: the first boundary produced from
an event with no reported duration carries the positive default. -/
theorem wordBoundary_duration_pos_witness :
    0 < (WordBoundary.mk "a" 0 1000000).duration
      ∧ 0 < ticksToSeconds (WordBoundary.mk "a" 0 1000000).duration
      ∧ effDuration none = 1000000 ∧ effDuration (some 0) = 1000000 :=
  wordBoundary_duration_pos [⟨"a", none, none⟩] 0 ⟨"a", 0, 1000000⟩
    (by rw [processBoundaries_cons]; exact List.mem_cons_self _ _)

/-! ## C8 — exponential smoothing convergence -/

lemma smoothStep_sub_target (p t a : ℚ) : smoothStep p t a - t = (p - t) * a := by
  simp only [smoothStep]; ring

lemma smoothStep_le_target (p t a : ℚ) (h : p ≤ t) (ha : 0 ≤ a) :
    smoothStep p t a ≤ t := by
  have h1 : smoothStep p t a - t = (p - t) * a := smoothStep_sub_target p t a
  nlinarith [mul_nonneg (sub_nonneg.mpr h) ha]

lemma le_smoothStep (p t a : ℚ) (h : p ≤ t) (ha : a ≤ 1) :
    p ≤ smoothStep p t a := by
  simp only [smoothStep]
  nlinarith [mul_nonneg (sub_nonneg.mpr h) (sub_nonneg.mpr ha)]

lemma target_le_smoothStep (p t a : ℚ) (h : t ≤ p) (ha : 0 ≤ a) :
    t ≤ smoothStep p t a := by
  have h1 : smoothStep p t a - t = (p - t) * a := smoothStep_sub_target p t a
  nlinarith [mul_nonneg (sub_nonneg.mpr h) ha]

lemma smoothStep_le (p t a : ℚ) (h : t ≤ p) (ha : a ≤ 1) :
    smoothStep p t a ≤ p := by
  simp only [smoothStep]
  nlinarith [mul_nonneg (sub_nonneg.mpr h) (sub_nonneg.mpr ha)]

lemma smoothIter_le_target (p t a : ℚ) (h : p ≤ t) (ha0 : 0 ≤ a) (ha1 : a ≤ 1) :
    ∀ n, p ≤ smoothIter p t a n ∧ smoothIter p t a n ≤ t := by
  intro n
  induction n with
  | zero => exact ⟨le_refl p, h⟩
  | succ m ih =>
    refine ⟨le_trans ih.1 (le_smoothStep _ t a ih.2 ha1), smoothStep_le_target _ t a ih.2 ha0⟩

lemma target_le_smoothIter (p t a : ℚ) (h : t ≤ p) (ha0 : 0 ≤ a) (ha1 : a ≤ 1) :
    ∀ n, t ≤ smoothIter p t a n ∧ smoothIter p t a n ≤ p := by
  intro n
  induction n with
  | zero => exact ⟨h, le_refl p⟩
  | succ m ih =>
    refine ⟨target_le_smoothStep _ t a ih.1 ha0, le_trans (smoothStep_le _ t a ih.1 ha1) ih.2⟩

lemma clamp01_of_mem (x : ℚ) (h0 : 0 ≤ x) (h1 : x ≤ 1) : clamp01 x = x := by
  rw [clamp01, max_eq_left h0, min_eq_left h1]

/-- C8: for a constant target in [0,1], a starting previous value in
[0,1] and a smoothing factor in [0,1], the iterates of
`smoothed = previous + (target - previous) * (1 - α)` shrink the distance
to the target every step, move monotonically toward the target without
ever overshooting it, and the applied clamp `clamp01` leaves the iterates
unchanged and always produces a value in [0,1]. -/
theorem smoothing_monotone_no_overshoot (target previous α : ℚ)
    (ht0 : 0 ≤ target) (ht1 : target ≤ 1) (hp0 : 0 ≤ previous) (hp1 : previous ≤ 1)
    (ha0 : 0 ≤ α) (ha1 : α ≤ 1) (n : Nat) :
    (|smoothIter previous target α (n + 1) - target|
        ≤ |smoothIter previous target α n - target|)
    ∧ (previous ≤ target →
        smoothIter previous target α n ≤ smoothIter previous target α (n + 1)
        ∧ smoothIter previous target α (n + 1) ≤ target)
    ∧ (target ≤ previous →
        smoothIter previous target α (n + 1) ≤ smoothIter previous target α n
        ∧ target ≤ smoothIter previous target α (n + 1))
    ∧ clamp01 (smoothIter previous target α n) = smoothIter previous target α n
    ∧ 0 ≤ clamp01 (smoothIter previous target α n)
    ∧ clamp01 (smoothIter previous target α n) ≤ 1 := by
  have hbounds : 0 ≤ smoothIter previous target α n ∧ smoothIter previous target α n ≤ 1 := by
    rcases le_total previous target with hle | hle
    · obtain ⟨hl, hr⟩ := smoothIter_le_target previous target α hle ha0 ha1 n
      exact ⟨le_trans hp0 hl, le_trans hr ht1⟩
    · obtain ⟨hl, hr⟩ := target_le_smoothIter previous target α hle ha0 ha1 n
      exact ⟨le_trans ht0 hl, le_trans hr hp1⟩
  have hclamp : clamp01 (smoothIter previous target α n) = smoothIter previous target α n :=
    clamp01_of_mem _ hbounds.1 hbounds.2
  refine ⟨?_, ?_, ?_, hclamp, ?_, ?_⟩
  · have hd : smoothIter previous target α (n + 1) - target
        = (smoothIter previous target α n - target) * α := by
      show smoothStep (smoothIter previous target α n) target α - target = _
      exact smoothStep_sub_target _ _ _
    rw [hd, abs_mul, abs_of_nonneg ha0]
    exact mul_le_of_le_one_right (abs_nonneg _) ha1
  · intro hle
    obtain ⟨hl, hr⟩ := smoothIter_le_target previous target α hle ha0 ha1 n
    exact ⟨le_smoothStep _ target α hr ha1, smoothStep_le_target _ target α hr ha0⟩
  · intro hle
    obtain ⟨hl, hr⟩ := target_le_smoothIter previous target α hle ha0 ha1 n
    exact ⟨smoothStep_le _ target α hl ha1, target_le_smoothStep _ target α hl ha0⟩
  · rw [hclamp]; exact hbounds.1
  · rw [hclamp]; exact hbounds.2

/-- Concrete instance of the C8 theorem: one step from 0 toward target 1
with factor 1/2 shrinks the distance to the target. -/
theorem smoothing_monotone_no_overshoot_witness :
    |smoothIter 0 1 (1/2) 1 - 1| ≤ |smoothIter 0 1 (1/2) 0 - 1| :=
  (smoothing_monotone_no_overshoot 1 0 (1/2) (by norm_num) (by norm_num) (by norm_num)
    (by norm_num) (by norm_num) (by norm_num) 0).1

/-! ## C6 — pre-buffer consumption -/

/-- C6: when `speakText` starts playback (non-blank text, not already
speaking), the pre-buffered result is consumed in place of fresh
synthesis exactly when its stored text equals the text to play — the
pre-buffer slot is then cleared and the synthesis outcome is irrelevant;
on a text mismatch the stale result is kept unplayed and the fresh
synthesis result is what gets played, as it is when no pre-buffer
exists. -/
theorem speakText_prebuffer_consumption (st : AppState) (t : String)
    (o : Except String SynthResult)
    (hne : ¬ trimString t = "") (hsp : st.isSpeaking = false) :
    (∀ r, st.nextChunkReady = some r → r.text = t →
      (speakText (some t) o st).currentAudio = some r.audio
      ∧ (speakText (some t) o st).nextChunkReady = none
      ∧ ∀ o2, speakText (some t) o st = speakText (some t) o2 st)
    ∧ (∀ r c, st.nextChunkReady = some r → ¬ r.text = t → o = .ok c →
      (speakText (some t) o st).currentAudio = some c.audio
      ∧ (speakText (some t) o st).wordBoundaries = c.wordBoundaries
      ∧ (speakText (some t) o st).currentPhonemes = c.phonemes
      ∧ (speakText (some t) o st).nextChunkReady = some r)
    ∧ (∀ c, st.nextChunkReady = none → o = .ok c →
      (speakText (some t) o st).currentAudio = some c.audio) := by
  refine ⟨?_, ?_, ?_⟩
  · intro r hr hrt
    refine ⟨?_, ?_, fun o2 => ?_⟩ <;>
      simp [speakText, hne, hsp, hr, hrt, playChunk]
  · intro r c hr hrt ho
    subst ho
    refine ⟨?_, ?_, ?_, ?_⟩ <;>
      simp [speakText, hne, hsp, hr, hrt, playChunk]
  · intro c hr ho
    subst ho
    simp [speakText, hne, hsp, hr, playChunk]

/-- Concrete instance of the C6 theorem: a matching pre-buffered chunk is
played (its audio becomes current) and the slot is cleared, even though
fresh synthesis would have failed. -/
theorem speakText_prebuffer_consumption_witness :
    (speakText (some "hi") (Except.error "x")
        ⟨false, [], some ⟨[7], [], none, "hi"⟩, none, [], none, none, "idle", none,
          ⟨0, 0, 0, 0⟩⟩).currentAudio = some [7]
    ∧ (speakText (some "hi") (Except.error "x")
        ⟨false, [], some ⟨[7], [], none, "hi"⟩, none, [], none, none, "idle", none,
          ⟨0, 0, 0, 0⟩⟩).nextChunkReady = none := by
  have h := (speakText_prebuffer_consumption
    ⟨false, [], some ⟨[7], [], none, "hi"⟩, none, [], none, none, "idle", none,
      ⟨0, 0, 0, 0⟩⟩ "hi" (Except.error "x") (by decide) rfl).1
    ⟨[7], [], none, "hi"⟩ rfl rfl
  exact ⟨h.1, h.2.1⟩

/-! ## C7 — synthesis failure handling -/

/-- C7: when the fresh synthesis for the current chunk rejects (no
matching pre-buffer), `speakText` catches the error: the speaking flag
ends false, the animation is idle (never left talking), and an error
status is surfaced; and a stream that delivers zero audio frames makes
`synthesizeChunk` itself throw the empty-audio error. -/
theorem speakText_synth_failure (st : AppState) (t e : String)
    (hne : ¬ trimString t = "") (hsp : st.isSpeaking = false)
    (hpre : ∀ r, st.nextChunkReady = some r → ¬ r.text = t) :
    (speakText (some t) (.error e) st).isSpeaking = false
    ∧ (speakText (some t) (.error e) st).animation = "idle"
    ∧ (speakText (some t) (.error e) st).status = some ("❌ TTS error: " ++ e)
    ∧ ¬ (speakText (some t) (.error e) st).animation = "talking"
    ∧ ∀ pr, synthesizeChunk t [] pr = .error "No audio received from TTS" := by
  have hval : (speakText (some t) (.error e) st).isSpeaking = false
      ∧ (speakText (some t) (.error e) st).animation = "idle"
      ∧ (speakText (some t) (.error e) st).status = some ("❌ TTS error: " ++ e) := by
    cases hnc : st.nextChunkReady with
    | none =>
      refine ⟨?_, ?_, ?_⟩ <;> simp [speakText, hne, hsp, hnc, speakTextCatch]
    | some r =>
      have hrt : ¬ r.text = t := hpre r hnc
      refine ⟨?_, ?_, ?_⟩ <;> simp [speakText, hne, hsp, hnc, hrt, speakTextCatch]
  refine ⟨hval.1, hval.2.1, hval.2.2, ?_, fun pr => rfl⟩
  rw [hval.2.1]
  decide

/-- Concrete instance of the C7 theorem: a rejected synthesis on a clean
state leaves the scheduler idle and not speaking. -/
theorem speakText_synth_failure_witness :
    (speakText (some "hi") (Except.error "No audio received from TTS")
        ⟨false, [], none, none, [], none, none, "talking", none,
          ⟨0, 0, 0, 0⟩⟩).isSpeaking = false
    ∧ (speakText (some "hi") (Except.error "No audio received from TTS")
        ⟨false, [], none, none, [], none, none, "talking", none,
          ⟨0, 0, 0, 0⟩⟩).animation = "idle" := by
  have h := speakText_synth_failure
    ⟨false, [], none, none, [], none, none, "talking", none, ⟨0, 0, 0, 0⟩⟩
    "hi" "No audio received from TTS" (by decide) rfl
    (fun r hr => Option.noConfusion hr)
  exact ⟨h.1, h.2.1⟩

/-! ## C10 — empty-text guard -/

/-- C10: a null argument, or one whose text trims to the empty string
(empty or all-whitespace), makes `speakText` return with the state
completely unchanged — queue, speaking flag, pre-buffer, current audio
and mouth state included. -/
theorem speakText_empty_guard (st : AppState) (o : Except String SynthResult)
    (text : Option String)
    (h : text = none ∨ ∃ t, text = some t ∧ trimString t = "") :
    speakText text o st = st := by
  rcases h with h | ⟨t, ht, htr⟩
  · rw [h]; rfl
  · rw [ht]; simp [speakText, htr]

/-- Concrete instance of the C10 theorem: a whitespace-only argument
leaves a fully-populated state untouched. -/
theorem speakText_empty_guard_witness :
    speakText (some "  ") (Except.error "x")
        ⟨true, ["q"], none, some [3], [⟨"w", 0, 5⟩], some 1, some ["w"], "talking",
          some "s", ⟨1, 1, 1, 1⟩⟩ =
      ⟨true, ["q"], none, some [3], [⟨"w", 0, 5⟩], some 1, some ["w"], "talking",
        some "s", ⟨1, 1, 1, 1⟩⟩ :=
  speakText_empty_guard _ _ _ (Or.inr ⟨"  ", rfl, by decide⟩)

end WebWaifu
